import Mathlib

/-!
# Verification of the go-patcher core logic

A shallow embedding of the decision logic of `go-patcher` (a host-side agent
that applies archive patches to a Tomcat instance), translated from the Go
source, together with theorems settling the specification claims.

Modelling conventions:
* Go strings are modelled as Lean `String` (a wrapper around `List Char`).
  All Go `strings.*` operations used by the program are re-implemented on the
  character list (all inputs of interest are ASCII, so Go byte indices and
  character indices coincide; these helpers carry a `go` prefix).
* `int` is modelled as `Int`; `strconv.Atoi` checks the 64-bit range
  explicitly and returns `Option Int`.
* Go maps built by the scanner (`map[string]int`) are modelled as association
  lists built in entry order; map lookup is `assocLookup`.
* The filesystem is modelled as a structure of regular files
  (path ↦ contents) plus a set of directory paths.  File permission bits and
  `chmod` are not modelled (no claim concerns them).  `os.Create` over an
  existing directory fails and the entry's write is skipped, as in the
  source's logged-and-continue behaviour.
* Operations that panic in Go (out-of-range slice) are modelled with
  `Option`/`Except`; a `none`/`.error` result is a panic/abort.
-/

set_option maxRecDepth 40000

namespace GoPatcher

/-! ## Go string primitives -/

/-- `needle` occurs as a contiguous substring of `hay`
(`strings.Contains` on character lists). -/
def hasSubList (hay needle : List Char) : Bool :=
  needle.isPrefixOf hay ||
    match hay with
    | [] => false
    | _ :: t => hasSubList t needle

/-- `strings.Contains s sub`. -/
def goContains (s sub : String) : Bool :=
  hasSubList s.data sub.data

/-- `strings.HasPrefix s pre`. -/
def goHasPrefix (s pre : String) : Bool :=
  pre.data.isPrefixOf s.data

/-- `strings.HasSuffix s suf`. -/
def goHasSuffix (s suf : String) : Bool :=
  suf.data.isSuffixOf s.data

/-- `strings.Split s sep` for a one-character separator: Go `strings.Split`
never returns an empty list and splits on every occurrence. -/
def splitOnChar (c : Char) : List Char → List (List Char)
  | [] => [[]]
  | h :: t =>
    if h = c then [] :: splitOnChar c t
    else
      match splitOnChar c t with
      | [] => [[h]]
      | a :: rest => (h :: a) :: rest

/-- The part of `l` before the first occurrence of `c`, and the part after it
(`none` when `c` does not occur). -/
def breakOnChar (c : Char) : List Char → Option (List Char × List Char)
  | [] => none
  | h :: t =>
    if h = c then some ([], t)
    else (breakOnChar c t).map (fun p => (h :: p.1, p.2))

/-- `strings.SplitN s sep n` for a one-character separator and `n > 0`:
at most `n` pieces, the last piece is the unsplit remainder. -/
def splitNChar (c : Char) : Nat → List Char → List (List Char)
  | 0, _ => []
  | 1, l => [l]
  | n + 2, l =>
    match breakOnChar c l with
    | none => [l]
    | some (a, b) => a :: splitNChar c (n + 1) b

/-- Join with a one-character separator (`strings.Join` / the inverse of
`splitOnChar`). -/
def joinWith (c : Char) : List (List Char) → List Char
  | [] => []
  | [x] => x
  | x :: y :: xs => x ++ c :: joinWith c (y :: xs)

/-- `strings.LastIndex s sub` for a one-character needle: last index or `-1`. -/
def lastIndexOf : List Char → Char → Int
  | [], _ => -1
  | h :: t, c =>
    let r := lastIndexOf t c
    if r ≥ 0 then r + 1 else if h = c then 0 else -1

/-- ASCII decimal digit test (`c >= '0' && c <= '9'` in the source). -/
def isGoDigit (c : Char) : Bool :=
  '0' ≤ c && c ≤ '9'

/-- Value of a list of decimal digits, most significant first. -/
def digitsVal : List Char → Nat → Nat
  | [], acc => acc
  | c :: t, acc => digitsVal t (acc * 10 + (c.toNat - '0'.toNat))

/-- `strconv.Atoi`: optional sign, at least one digit, nothing else,
64-bit signed range.  Out-of-range and malformed inputs give `none`. -/
def goAtoi (s : String) : Option Int :=
  let (sign, ds) : Int × List Char :=
    match s.data with
    | '+' :: r => (1, r)
    | '-' :: r => (-1, r)
    | r => (1, r)
  if ds.isEmpty then none
  else if ds.all isGoDigit then
    let v : Int := sign * (digitsVal ds 0 : Int)
    if v < -(2 ^ 63) || v > 2 ^ 63 - 1 then none else some v
  else none

/-- `trimSuffix` from the source: drop `suffix` when present. -/
def trimSuffix (s suffix : String) : String :=
  if goHasSuffix s suffix then String.mk (s.data.take (s.data.length - suffix.data.length))
  else s

/-- Replace the first occurrence of `pat` in `l` with `rep`
(`strings.Replace(s, pat, rep, 1)`). -/
def replaceFirstList (pat rep : List Char) : List Char → List Char
  | [] => []
  | h :: t =>
    if pat.isPrefixOf (h :: t) then rep ++ (h :: t).drop pat.length
    else h :: replaceFirstList pat rep t

/-- `strings.Replace(s, pat, rep, 1)`. -/
def goReplaceFirst (s pat rep : String) : String :=
  String.mk (replaceFirstList pat.data rep.data s.data)

/-! ## `replaceNumbers` (source `replaceNumbers`, part_003 lines 813–840) -/

/-- The loop of `replaceNumbers`: `lastWasDigit` tracks whether the previous
rune was a digit, a digit run contributes a single `'*'`. -/
def replaceNumbersAux : Bool → List Char → List Char
  | _, [] => []
  | lastWasDigit, c :: t =>
    if isGoDigit c then
      if lastWasDigit then replaceNumbersAux true t
      else '*' :: replaceNumbersAux true t
    else c :: replaceNumbersAux false t

/-- `replaceNumbers` replaces consecutive digits in a string with a single
asterisk (translated from the source). -/
def replaceNumbers (s : String) : String :=
  String.mk (replaceNumbersAux false s.data)

/-- Specification-side restatement of the claim's words: each maximal run of
decimal digits becomes a single `'*'`, all other characters are kept. -/
def collapseDigitRuns : List Char → List Char
  | [] => []
  | c :: t =>
    if isGoDigit c then '*' :: collapseDigitRuns (t.dropWhile isGoDigit)
    else c :: collapseDigitRuns t
termination_by l => l.length
decreasing_by
  · simp only [List.length_cons]
    exact Nat.lt_succ_of_le (List.dropWhile_sublist (p := isGoDigit)).length_le
  · simp

/-! ### Lemmas about `replaceNumbers` -/

theorem replaceNumbersAux_true_eq_dropWhile (t : List Char) :
    replaceNumbersAux true t = replaceNumbersAux false (t.dropWhile isGoDigit) := by
  induction t with
  | nil => rfl
  | cons c t ih =>
    by_cases h : isGoDigit c = true
    · simp [replaceNumbersAux, h, List.dropWhile, ih]
    · simp [replaceNumbersAux, h, List.dropWhile]

theorem replaceNumbersAux_false_eq_collapse (l : List Char) :
    replaceNumbersAux false l = collapseDigitRuns l := by
  induction l using collapseDigitRuns.induct with
  | case1 => simp [replaceNumbersAux, collapseDigitRuns]
  | case2 c t h ih =>
    rw [collapseDigitRuns]
    simp [replaceNumbersAux, h, replaceNumbersAux_true_eq_dropWhile, ih]
  | case3 c t h ih =>
    rw [collapseDigitRuns]
    simp [replaceNumbersAux, h, ih]

theorem star_not_digit : isGoDigit '*' = false := by decide

theorem collapse_no_digits (l : List Char) :
    ∀ c ∈ collapseDigitRuns l, isGoDigit c = false := by
  induction l using collapseDigitRuns.induct with
  | case1 => intro c hc; rw [collapseDigitRuns] at hc; simp at hc
  | case2 c t h ih =>
    intro d hd
    rw [collapseDigitRuns] at hd
    simp only [h, if_pos, List.mem_cons] at hd
    rcases hd with rfl | hd
    · exact star_not_digit
    · exact ih d hd
  | case3 c t h ih =>
    intro d hd
    rw [collapseDigitRuns] at hd
    simp only [h, Bool.false_eq_true, if_false, List.mem_cons] at hd
    rcases hd with rfl | hd
    · simpa using h
    · exact ih d hd

theorem collapse_of_no_digits (l : List Char) (h : ∀ c ∈ l, isGoDigit c = false) :
    collapseDigitRuns l = l := by
  induction l with
  | nil => rw [collapseDigitRuns]
  | cons c t ih =>
    have hc : isGoDigit c = false := h c (List.mem_cons_self _ _)
    rw [collapseDigitRuns]
    simp only [hc, Bool.false_eq_true, if_false]
    rw [ih (fun d hd => h d (List.mem_cons_of_mem _ hd))]

theorem replaceNumbers_eq_collapse (f : String) :
    replaceNumbers f = String.mk (collapseDigitRuns f.data) := by
  unfold replaceNumbers
  rw [replaceNumbersAux_false_eq_collapse]

/-- **C7**: for every string `f`, `replaceNumbers f` replaces each maximal run
of decimal digits with a single `'*'` and leaves all other characters
unchanged in order (it agrees with the run-collapsing specification
`collapseDigitRuns`), it is idempotent, and
`replaceNumbers "jaxb-impl-2.3.3.jar" = "jaxb-impl-*.*.*.jar"`. -/
theorem C7_replaceNumbers_collapses_runs_and_idempotent :
    (∀ f : String, replaceNumbers f = String.mk (collapseDigitRuns f.data)) ∧
    (∀ f : String, replaceNumbers (replaceNumbers f) = replaceNumbers f) ∧
    replaceNumbers "jaxb-impl-2.3.3.jar" = "jaxb-impl-*.*.*.jar" := by
  refine ⟨replaceNumbers_eq_collapse, ?_, by decide⟩
  intro f
  rw [replaceNumbers_eq_collapse f, replaceNumbers_eq_collapse]
  show String.mk (collapseDigitRuns (collapseDigitRuns f.data)) = _
  rw [collapse_of_no_digits _ (collapse_no_digits f.data)]

example : replaceNumbers "ignite-hibernate-core-2.12.0.jar" = "ignite-hibernate-core-*.*.*.jar" := by decide
example : replaceNumbers "commons-text-1.9.jar" = "commons-text-*.*.jar" := by decide

/-! ## Filesystem model

Regular files are a path ↦ contents association list, directories a list of
paths.  `os.Stat`-existence sees both. -/

/-- Set key `k` to `v` in an association list (update in place, else append);
the model of writing into a Go map or overwriting a file. -/
def assocSet {α : Type} (m : List (String × α)) (k : String) (v : α) :
    List (String × α) :=
  match m with
  | [] => [(k, v)]
  | (k', v') :: t => if k' = k then (k', v) :: t else (k', v') :: assocSet t k v

/-- Look up key `k` in an association list (Go map lookup / reading a file). -/
def assocLookup {α : Type} (m : List (String × α)) (k : String) : Option α :=
  match m with
  | [] => none
  | (k', v') :: t => if k' = k then some v' else assocLookup t k

/-- Boolean string-list membership. -/
def strMem : List String → String → Bool
  | [], _ => false
  | h :: t, s => if h = s then true else strMem t s

structure FS where
  files : List (String × String)
  dirs : List String
  deriving DecidableEq

/-- `pathExists` (`os.Stat` succeeding): a regular file or directory is there. -/
def pathExists (fs : FS) (p : String) : Bool :=
  (assocLookup fs.files p).isSome || strMem fs.dirs p

/-- `os.MkdirAll` for the tar directory entry (parent creation is irrelevant
to every claim and not modelled). -/
def fsMkdir (fs : FS) (p : String) : FS :=
  { fs with dirs := p :: fs.dirs }

/-- `os.Create` + `io.Copy`: creating a file over an existing directory fails,
and the source logs the error and leaves the entry unwritten; otherwise the
file is created or truncated with the given contents. -/
def fsCreate (fs : FS) (p content : String) : FS :=
  if strMem fs.dirs p then fs
  else { fs with files := assocSet fs.files p content }

/-- `os.WriteFile` over a known regular file. -/
def fsWriteFile (fs : FS) (p content : String) : FS :=
  { fs with files := assocSet fs.files p content }

/-! ## Archive scanning and extraction
(`unrollTarball`, `shouldSkipFile`, `isLibJar`; part_003 lines 487–605) -/

/-- A tar entry: directory, regular file (with contents), or any other
type flag (logged as unsupported and ignored).  Permission bits are not
modelled. -/
inductive TarEntry where
  | dir (name : String)
  | reg (name : String) (content : String)
  | other (name : String)
  deriving DecidableEq

/-- `skipPattern` =
`^components/sakai-provider-pack/WEB-INF/.*(unboundid|components|jldap).*\.xml$`:
the path starts with the fixed prefix, ends in `.xml`, and one of the three
keywords occurs between the prefix and the final `.xml`.  (The regex `.`
excludes `'\n'`; paths containing newlines do not occur and are not
distinguished by this model.) -/
def shouldSkipFile (filename : String) : Bool :=
  let pre := "components/sakai-provider-pack/WEB-INF/"
  let rest := filename.data.drop pre.data.length
  let middle := rest.take (rest.length - ".xml".data.length)
  goHasPrefix filename pre && goHasSuffix filename ".xml" &&
    (hasSubList middle "unboundid".data || hasSubList middle "components".data ||
      hasSubList middle "jldap".data)

/-- `isLibJar`: a `.jar` under `shared/lib/`, `common/lib/` or `lib/`. -/
def isLibJar (filename : String) : Bool :=
  let isSharedJar := goHasPrefix filename "shared/lib/"
  let isCommonJar := goHasPrefix filename "common/lib/"
  let isLibDirJar := goHasPrefix filename "lib/"
  let isJarFile := goHasSuffix filename ".jar"
  (isSharedJar || isCommonJar || isLibDirJar) && isJarFile

/-- Strip a leading `"./"` (`strings.Replace(filename, "./", "", 1)` guarded
by `strings.HasPrefix(filename, "./")`). -/
def normalizeName (s : String) : String :=
  if goHasPrefix s "./" then String.mk (s.data.drop 2) else s

/-- The ArchiveEntryBucket: a `map[string]int` built in entry order. -/
abbrev Bucket := List (String × Int)

/-- Increment `m[k]` (key known present). -/
def assocIncr (m : Bucket) (k : String) : Bucket :=
  m.map (fun p => if p.1 = k then (p.1, p.2 + 1) else p)

/-- The bucket-accounting step of `unrollTarball` (part_003 lines 562–577):
paths longer than `"components/a"` with at least two segments are counted,
versioned library jars individually under their full path with count 1,
every other file under its first-two-segment group key. -/
def bucketStep (m : Bucket) (filename : String) : Bucket :=
  if filename.data.length > "components/a".data.length then
    let parts := splitOnChar '/' filename.data
    if parts.length > 1 then
      let firstTwoPaths := String.mk (parts.getD 0 [] ++ '/' :: parts.getD 1 [])
      let ok := (assocLookup m firstTwoPaths).isSome
      if isLibJar filename then assocSet m filename 1
      else if ok then assocIncr m firstTwoPaths
      else m ++ [(firstTwoPaths, 1)]
    else m
  else m

/-- One iteration of the `unrollTarball` entry loop.  For a regular file the
protected-pattern skip happens first; then bucket accounting; then the write. -/
def processEntry (st : Bucket × FS) (e : TarEntry) : Bucket × FS :=
  match e with
  | .dir name => (st.1, if pathExists st.2 name then st.2 else fsMkdir st.2 name)
  | .other _ => st
  | .reg name content =>
    let filename := normalizeName name
    if shouldSkipFile filename && pathExists st.2 filename then st
    else (bucketStep st.1 filename, fsCreate st.2 filename content)

/-- `unrollTarball`: scan the entry list, returning the bucket and the
filesystem after extraction.  (Archive decompression, read errors and
permission bits are outside the model; the entry list is the decoded
archive.) -/
def unrollTarball (entries : List TarEntry) (fs : FS) : Bucket × FS :=
  entries.foldl processEntry ([], fs)

/-- Claim-side variant for C3, following the spec's words: bucket accounting
happens **before** the protected-file skip, so a skipped entry still counts. -/
def processEntrySpecC3 (st : Bucket × FS) (e : TarEntry) : Bucket × FS :=
  match e with
  | .dir name => (st.1, if pathExists st.2 name then st.2 else fsMkdir st.2 name)
  | .other _ => st
  | .reg name content =>
    let filename := normalizeName name
    let m := bucketStep st.1 filename
    if shouldSkipFile filename && pathExists st.2 filename then (m, st.2)
    else (m, fsCreate st.2 filename content)

/-- Claim-side `unrollTarball` for C3 (accounting before skip). -/
def unrollTarballSpecC3 (entries : List TarEntry) (fs : FS) : Bucket × FS :=
  entries.foldl processEntrySpecC3 ([], fs)

/-! ## Eviction planning and execution
(`applyTarballPatch` loop, part_003 lines 438–481; `removeFiles` lines 865–907)

The on-disk effect of `os.RemoveAll` / `os.Remove` is abstracted by a
`RemoveEnv` of success predicates (the claims concern which removals are
attempted and how failures propagate, not the removed bytes). -/

/-- The first two path segments of a bucket key
(`pathArray[0] + "/" + pathArray[1]`).  Every bucket key built by
`unrollTarball` has at least two segments; on a key without a `/` the Go
index expression would panic, here `getD` yields an empty second segment. -/
def twoSegOf (s : String) : String :=
  let pathArray := splitOnChar '/' s.data
  String.mk (pathArray.getD 0 [] ++ '/' :: pathArray.getD 1 [])

/-- A removal the eviction loop performs: a recursive directory removal
(`os.RemoveAll`) or a wildcarded library-glob removal (`removeFiles`). -/
inductive EvictAction where
  | removeAll (dir : String)
  | removeGlob (glob : String)
  deriving DecidableEq

/-- The eviction decision of `applyTarballPatch` for one bucket entry
(part_003 lines 438–481), in source order: modular-component groups with
count over 3 (plus the federated content-review special case), then exploded
webapps, then versioned shared-library globs. -/
def evictActionsFor (fileMapPath : String) (cnt : Int) : List EvictAction :=
  let isWebapp := goHasPrefix fileMapPath "webapps"
  let isWarFile := goHasSuffix fileMapPath ".war"
  let isComponents := goHasPrefix fileMapPath "components"
  let isSharedJar := isLibJar fileMapPath
  let isProvidersDir := goContains fileMapPath "sakai-provider-pack"
  let pathToDelete := twoSegOf fileMapPath
  if 3 < cnt ∧ isComponents = true ∧ isProvidersDir = false then
    .removeAll pathToDelete ::
      (if goContains pathToDelete "sakai-content-review-pack-federated" = true then
        [.removeAll "components/sakai-content-review-pack"]
      else [])
  else if isWebapp = true ∧ isWarFile = true then
    [.removeAll (trimSuffix pathToDelete ".war")]
  else if isSharedJar = true then
    let wildcardedFilename :=
      if goContains fileMapPath "gradebook2" = true then fileMapPath
      else replaceNumbers fileMapPath
    [.removeGlob (goReplaceFirst wildcardedFilename "-SNAPSHOT" "")]
  else []

/-- All removals the eviction loop performs for a bucket (the Go map
iteration order is arbitrary; the action *set* is order-independent and is
modelled in association-list order). -/
def evictionActions : Bucket → List EvictAction
  | [] => []
  | (k, c) :: t => evictActionsFor k c ++ evictionActions t

/-- Abstraction of the filesystem-removal side of eviction:
`glob` is `filepath.Glob`, `isDirOf` the `isDir` check, `resolve`
`filepath.EvalSymlinks`, `removeOk`/`removeAllOk` whether `os.Remove` /
`os.RemoveAll` succeed on a path.  (`Glob`/`Lstat`/`EvalSymlinks` error
returns are not modelled; they are further fatal paths.) -/
structure RemoveEnv where
  glob : String → List String
  isDirOf : String → Bool
  resolve : String → String
  removeOk : String → Bool
  removeAllOk : String → Bool

/-- First loop of `removeFiles`: directories and symlink pairs are marked to
be skipped. -/
def buildToSkip (env : RemoveEnv) (files : List String) : List String :=
  files.foldl
    (fun toSkip file =>
      if env.isDirOf file then toSkip ++ [file]
      else
        let realFile := env.resolve file
        if realFile ≠ file then toSkip ++ [file, realFile] else toSkip)
    []

/-- Second loop of `removeFiles`: remove each non-skipped match, returning
the error of the first failed removal. -/
def removeLoop (env : RemoveEnv) (toSkip : List String) : List String → Except String Unit
  | [] => .ok ()
  | file :: rest =>
    if strMem toSkip file then removeLoop env toSkip rest
    else if env.removeOk file then removeLoop env toSkip rest
    else .error ("Failed to remove " ++ file)

/-- `removeFiles` (part_003 lines 865–907). -/
def removeFiles (env : RemoveEnv) (wildcardedPath : String) : Except String Unit :=
  let files := env.glob wildcardedPath
  removeLoop env (buildToSkip env files) files

/-- Executing one eviction action; an `.error` is the source's `panic`
(the run aborts). -/
def execEvictAction (env : RemoveEnv) : EvictAction → Except String Unit
  | .removeAll d =>
    if env.removeAllOk d then .ok () else .error ("Could not remove path: " ++ d)
  | .removeGlob g =>
    match removeFiles env g with
    | .ok _ => .ok ()
    | .error _ => .error ("Could not delete wildcarded path: " ++ g)

def execEvictActions (env : RemoveEnv) : List EvictAction → Except String Unit
  | [] => .ok ()
  | a :: rest =>
    match execEvictAction env a with
    | .ok _ => execEvictActions env rest
    | .error e => .error e

/-- The whole "Clean out old directories" phase of `applyTarballPatch`. -/
def cleanOutOldDirs (env : RemoveEnv) (m : Bucket) : Except String Unit :=
  execEvictActions env (evictionActions m)

/-! ## Property patching (`modifyPropertyFiles`, part_003 lines 740–811)

File contents are strings; `os.ReadFile` + `strings.Split(input, "\n")` and
`strings.Join(lines, "\n")` + `os.WriteFile` are modelled with
`goSplitLines` / `goJoinLines`.  The dated comment appended for a brand-new
property embeds `time.Now()`; the formatted date is passed as the `now`
parameter.

The inner loop of the source mutates `lines` while ranging over it:
`range` iterates over the slice captured at loop entry (the pristine
`strings.Split` result, whose backing array is reallocated by the first
insertion since `cap = len`), while `lines[i] = ...` and the insertion
`append(lines[:i+1], append([]string{newPropertyLine}, lines[i+1:]...)...)`
act on the *current* value of `lines`.  `commentStep`/`commentLoop` mirror
exactly that: `line` is read from the original list, the write and the
insertion happen on the evolving list. -/

def propertyFiles : List String :=
  ["sakai.properties", "dev.properties", "local.properties", "instance.properties"]

def goSplitLines (s : String) : List String :=
  (splitOnChar '\n' s.data).map String.mk

def goJoinLines (ls : List String) : String :=
  String.mk (joinWith '\n' (ls.map String.data))

/-- The per-line condition of the inner loop: the line contains the key and
does not contain `"#" + key`. -/
def lineMatches (key line : String) : Bool :=
  hasSubList line.data key.data && !hasSubList line.data ('#' :: key.data)

/-- `append(lines[:i+1], append([]string{a}, lines[i+1:]...)...)`. -/
def goInsertAfter (l : List String) (i : Nat) (a : String) : List String :=
  l.take (i + 1) ++ a :: l.drop (i + 1)

/-- One iteration of the comment-out loop, at index `i` of the original
line list `orig`, acting on the current `(lines, fileModified)` state. -/
def commentStep (key newPropertyLine : String) (orig : List String)
    (st : List String × Bool) (i : Nat) : List String × Bool :=
  let line := orig.getD i ""
  if lineMatches key line then
    (goInsertAfter (st.1.set i ("#" ++ line)) i newPropertyLine, true)
  else st

/-- The whole comment-out loop over one property file's lines. -/
def commentLoop (key newPropertyLine : String) (orig : List String) :
    List String × Bool :=
  (List.range orig.length).foldl (commentStep key newPropertyLine orig) (orig, false)

/-- The key of a change line: text before the first `=` when the line has an
`=` and no `#`, else the sentinel. -/
def deriveKey (newPropertyLine : String) : String :=
  if goContains newPropertyLine "=" && !goContains newPropertyLine "#" then
    String.mk ((splitOnChar '=' newPropertyLine.data).headD [])
  else "defaultkeyvalueimpossibletofind"

/-- State threaded through the candidate-file loop. -/
structure PropState where
  fs : FS
  added : Bool
  lastValid : String
  deriving DecidableEq

/-- Processing of one candidate property file: if it exists and can be read,
remember it as the most specific so far, comment out matching lines and
insert the new line after each, writing the file back when modified. -/
def propFileStep (key newPropertyLine : String) (st : PropState)
    (propertyFile : String) : PropState :=
  let path := "sakai/" ++ propertyFile
  if pathExists st.fs path then
    match assocLookup st.fs.files path with
    | none => st
    | some input =>
      let res := commentLoop key newPropertyLine (goSplitLines input)
      { fs := if res.2 then fsWriteFile st.fs path (goJoinLines res.1) else st.fs
        added := st.added || res.2
        lastValid := path }
  else st

/-- The trailing block of the change-line loop: when nothing matched
anywhere and some candidate file exists (and is still readable), append the
dated patch comment and the new line to the most specific one. -/
def applyFinish (patchID now newPropertyLine : String) (st : PropState) : FS :=
  if st.added = false ∧ st.lastValid ≠ "" then
    match assocLookup st.fs.files st.lastValid with
    | none => st.fs
    | some input =>
      fsWriteFile st.fs st.lastValid
        (goJoinLines (goSplitLines input ++
          ["# Longsight patch ID: " ++ patchID ++ " (" ++ now ++ ")", newPropertyLine]))
  else st.fs

/-- Processing of one change line of `modifyPropertyFiles`: walk the
candidate files, then run the brand-new-property append block. -/
def applyOneProperty (patchID now : String) (fs : FS) (newPropertyLine : String) : FS :=
  let key := deriveKey newPropertyLine
  applyFinish patchID now newPropertyLine
    (propertyFiles.foldl (propFileStep key newPropertyLine) ⟨fs, false, ""⟩)

/-- `modifyPropertyFiles`: apply every change line of the raw property text. -/
def modifyPropertyFiles (rawProperties patchID now : String) (fs : FS) : FS :=
  (goSplitLines rawProperties).foldl (applyOneProperty patchID now) fs

/-- The `lastValidPropertyFile` computation: the last candidate file that
exists and is readable, or `""`. -/
def lastExistingPropertyFile (fs : FS) : String :=
  propertyFiles.foldl
    (fun acc pf =>
      if (assocLookup fs.files ("sakai/" ++ pf)).isSome then "sakai/" ++ pf else acc)
    ""

/-! ## Startup readiness monitoring
(`parseServerStartupTime` lines 163–187, `checkServerStartup` lines 309–335,
the polling loop of `main` lines 135–161) -/

def tomcatServerStartupPattern : String := "Server startup in"

def igniteMismatchPattern : String := "Fix cache configuration or set system property"

/-- The "older Tomcats" token loop of `parseServerStartupTime`: the first
space-separated token (`strings.SplitN(line, " ", 10)`) that parses as an
integer greater than 1000, else `-1`. -/
def firstBigToken : List (List Char) → Int
  | [] => -1
  | t :: rest =>
    match goAtoi (String.mk t) with
    | some k => if 1000 < k then k else firstBigToken rest
    | none => firstBigToken rest

/-- `parseServerStartupTime`: for a line mentioning `milliseconds`, parse the
number between the last `[` and the last `]` (commas removed) and accept it
when over 1000; otherwise (and as fallback) scan the space-separated tokens.
Go panics (slice out of range) when the line contains `milliseconds` but the
last `]` lies before the last `[` (in particular when either bracket is
missing); that panic is `none`. -/
def parseServerStartupTime (logLine : String) : Option Int :=
  let cs := logLine.data
  if goContains logLine "milliseconds" then
    let beginBracket : Int := lastIndexOf cs '[' + 1
    let endComma : Int := lastIndexOf cs ']'
    if endComma < beginBracket then none
    else
      match goAtoi (String.mk
          (((cs.take endComma.toNat).drop beginBracket.toNat).filter (fun c => c != ','))) with
      | some k =>
        if 1000 < k then some k else some (firstBigToken (splitNChar ' ' 10 cs))
      | none => some (firstBigToken (splitNChar ' ' 10 cs))
  else some (firstBigToken (splitNChar ' ' 10 cs))

/-- `checkServerStartup` over the lines of `logs/catalina.out`: the first
line containing the ignite mismatch signature yields `"ignite"`, else the
first line containing the startup marker is returned, else `"false"`.
(Each line is tested for the signature before the marker.) -/
def checkServerStartup : List String → String
  | [] => "false"
  | line :: rest =>
    if goContains line igniteMismatchPattern then "ignite"
    else if goContains line tomcatServerStartupPattern then line
    else checkServerStartup rest

/-- Classification of one poll of the `main` loop (lines 138–153):
`deferred` = report `patchDefer`, `success`/`down` = report and exit,
`keepWaiting` = sleep and poll again.  `none` models the Go panic inside
`parseServerStartupTime`. -/
inductive Outcome where
  | success (startupMillis : Int)
  | down
  | deferred
  | keepWaiting
  deriving DecidableEq

/-- One iteration of the readiness-polling loop of `main`. -/
def pollOutcome (logLines : List String) : Option Outcome :=
  let serverStartupTime := checkServerStartup logLines
  if goContains serverStartupTime "ignite" then some .deferred
  else if !goContains serverStartupTime "false" then
    match parseServerStartupTime serverStartupTime with
    | none => none
    | some parsedTime =>
      if 0 < parsedTime then some (.success parsedTime) else some .down
  else some .keepWaiting

/-- The whole polling loop over the sequence of log snapshots observed by
the polls that occur within the wait budget; an exhausted budget is `down`
(`tomcatDown` with `-1`). -/
def runMonitor : List (List String) → Option Outcome
  | [] => some .down
  | snap :: rest =>
    match pollOutcome snap with
    | some .keepWaiting => runMonitor rest
    | r => r

/-! ### Association-list lemmas -/

theorem assocLookup_assocSet_self {α : Type} (m : List (String × α)) (k : String) (v : α) :
    assocLookup (assocSet m k v) k = some v := by
  induction m with
  | nil => simp [assocSet, assocLookup]
  | cons p t ih =>
    obtain ⟨k', v'⟩ := p
    by_cases h : k' = k
    · simp [assocSet, assocLookup, h]
    · simp [assocSet, assocLookup, h, ih]

theorem assocLookup_assocSet_ne {α : Type} (m : List (String × α)) (k q : String) (v : α)
    (h : q ≠ k) : assocLookup (assocSet m k v) q = assocLookup m q := by
  induction m with
  | nil =>
    simp only [assocSet, assocLookup]
    exact if_neg (fun he => h he.symm)
  | cons p t ih =>
    obtain ⟨k', v'⟩ := p
    by_cases hk : k' = k
    · subst hk
      simp only [assocSet, if_pos rfl, assocLookup]
      rw [if_neg (fun he => h he.symm), if_neg (fun he => h he.symm)]
    · simp only [assocSet, if_neg hk, assocLookup]
      by_cases hq : k' = q
      · rw [if_pos hq, if_pos hq]
      · rw [if_neg hq, if_neg hq, ih]

/-! ### C2: the "analysis pass" writes files; bucket determinism -/

theorem foldl_bucket_fs_independent (entries : List TarEntry) :
    ∀ (m : Bucket) (fsa fsb : FS),
      (∀ e ∈ entries, ∀ name content, e = .reg name content →
        shouldSkipFile (normalizeName name) = false) →
      (entries.foldl processEntry (m, fsa)).1 = (entries.foldl processEntry (m, fsb)).1 := by
  induction entries with
  | nil => intro m fsa fsb _; rfl
  | cons e t ih =>
    intro m fsa fsb h
    have ht : ∀ e' ∈ t, ∀ name content, e' = .reg name content →
        shouldSkipFile (normalizeName name) = false :=
      fun e' he' => h e' (List.mem_cons_of_mem _ he')
    cases e with
    | dir name => exact ih m _ _ ht
    | other name => exact ih m _ _ ht
    | reg name content =>
      have hskip : shouldSkipFile (normalizeName name) = false :=
        h _ (List.mem_cons_self _ _) name content rfl
      simp only [List.foldl_cons, processEntry, hskip, Bool.false_and, Bool.false_eq_true,
        if_false]
      exact ih _ _ _ ht

/-- **C2 counterexample**: the first `unrollTarball` call of
`applyTarballPatch` is not a dry scan — on a one-entry archive over an empty
filesystem it writes the entry to disk, so the claim's "writes no files to
the filesystem" is false. -/
theorem C2_counterexample_first_pass_writes_files :
    (unrollTarball [.reg "components/foo-pack/a.txt" "x"] ⟨[], []⟩).2 ≠ (⟨[], []⟩ : FS) ∧
    assocLookup ((unrollTarball [.reg "components/foo-pack/a.txt" "x"] ⟨[], []⟩).2).files
        "components/foo-pack/a.txt" = some "x" := by
  constructor
  · decide
  · decide

/-- **C2 (amended)**: the first `unrollTarball` call writes files — it is a
full extraction — and the `ArchiveEntryBucket` it returns is deterministic in
the archive alone when no regular entry's normalized path matches the
protected-file pattern: running `unrollTarball` twice in sequence on the same
archive returns identical bucket maps. -/
theorem C2_amended_extraction_writes_and_bucket_deterministic
    (entries : List TarEntry) (fs : FS)
    (h : ∀ e ∈ entries, ∀ name content, e = .reg name content →
      shouldSkipFile (normalizeName name) = false) :
    (unrollTarball entries ((unrollTarball entries fs).2)).1 =
      (unrollTarball entries fs).1 :=
  foldl_bucket_fs_independent entries [] _ _ h

/-- Witness for C2 (amended) at a concrete archive. -/
theorem C2_amended_witness :
    (unrollTarball [.reg "components/foo-pack/a.txt" "x"]
        ((unrollTarball [.reg "components/foo-pack/a.txt" "x"] ⟨[], []⟩).2)).1 =
      (unrollTarball [.reg "components/foo-pack/a.txt" "x"] (⟨[], []⟩ : FS)).1 :=
  C2_amended_extraction_writes_and_bucket_deterministic
    [.reg "components/foo-pack/a.txt" "x"] ⟨[], []⟩
    (by
      intro e he name content hEq
      simp only [List.mem_singleton] at he
      subst he
      cases hEq
      decide)

/-! ### C3: protected entries and bucket accounting -/

/-- **C3 counterexample**: a protected entry whose file already exists is
skipped **before** bucket accounting, so the returned map is *not* "the same
as if the entry were not protected": on a one-entry archive the source's
`unrollTarball` returns the empty bucket while the spec-ordered variant
(accounting first) returns a counted group. -/
theorem C3_counterexample_protected_entry_not_counted :
    shouldSkipFile "components/sakai-provider-pack/WEB-INF/components.xml" = true ∧
    pathExists ⟨[("components/sakai-provider-pack/WEB-INF/components.xml", "orig")], []⟩
      "components/sakai-provider-pack/WEB-INF/components.xml" = true ∧
    (unrollTarball [.reg "components/sakai-provider-pack/WEB-INF/components.xml" "new"]
      ⟨[("components/sakai-provider-pack/WEB-INF/components.xml", "orig")], []⟩).1 = [] ∧
    (unrollTarballSpecC3 [.reg "components/sakai-provider-pack/WEB-INF/components.xml" "new"]
      ⟨[("components/sakai-provider-pack/WEB-INF/components.xml", "orig")], []⟩).1 =
      [("components/sakai-provider-pack", 1)] := by
  refine ⟨by decide, by decide, by decide, by decide⟩

/-- **C3 (amended)**: a regular entry whose normalized path matches the
protected pattern and whose file already exists is skipped *entirely*: the
entry-loop iteration leaves both the bucket and the filesystem unchanged
(no bucket accounting and no bytes written). -/
theorem C3_amended_protected_existing_entry_skipped_entirely
    (name content : String) (m : Bucket) (fs : FS)
    (hskip : shouldSkipFile (normalizeName name) = true)
    (hex : pathExists fs (normalizeName name) = true) :
    processEntry (m, fs) (.reg name content) = (m, fs) := by
  simp [processEntry, hskip, hex]

/-- Witness for C3 (amended) at a concrete entry. -/
theorem C3_amended_witness :
    processEntry ([], ⟨[("components/sakai-provider-pack/WEB-INF/components.xml", "orig")], []⟩)
        (.reg "components/sakai-provider-pack/WEB-INF/components.xml" "new") =
      ([], ⟨[("components/sakai-provider-pack/WEB-INF/components.xml", "orig")], []⟩) :=
  C3_amended_protected_existing_entry_skipped_entirely
    "components/sakai-provider-pack/WEB-INF/components.xml" "new" []
    ⟨[("components/sakai-provider-pack/WEB-INF/components.xml", "orig")], []⟩
    (by decide) (by decide)

/-! ### C4: which directories the eviction loop removes recursively -/

theorem mem_removeAll_evictActionsFor (k : String) (c : Int) (d : String) :
    EvictAction.removeAll d ∈ evictActionsFor k c ↔
      (3 < c ∧ goHasPrefix k "components" = true ∧
        goContains k "sakai-provider-pack" = false ∧
        (d = twoSegOf k ∨
          (goContains (twoSegOf k) "sakai-content-review-pack-federated" = true ∧
            d = "components/sakai-content-review-pack"))) ∨
      (¬(3 < c ∧ goHasPrefix k "components" = true ∧
          goContains k "sakai-provider-pack" = false) ∧
        goHasPrefix k "webapps" = true ∧ goHasSuffix k ".war" = true ∧
        d = trimSuffix (twoSegOf k) ".war") := by
  simp only [evictActionsFor]
  by_cases h1 : 3 < c ∧ goHasPrefix k "components" = true ∧
      goContains k "sakai-provider-pack" = false
  · rw [if_pos h1]
    by_cases h2 : goContains (twoSegOf k) "sakai-content-review-pack-federated" = true
    · rw [if_pos h2]
      simp [h1, h2]
    · rw [if_neg h2]
      simp [h1, h2]
  · rw [if_neg h1]
    by_cases h3 : goHasPrefix k "webapps" = true ∧ goHasSuffix k ".war" = true
    · rw [if_pos h3]
      simp only [List.mem_singleton]
      constructor
      · intro h
        rw [EvictAction.removeAll.injEq] at h
        exact Or.inr ⟨h1, h3.1, h3.2, h⟩
      · rintro (⟨ha, hb, hc', _⟩ | ⟨_, _, _, hd⟩)
        · exact absurd ⟨ha, hb, hc'⟩ h1
        · rw [hd]
    · rw [if_neg h3]
      by_cases h4 : isLibJar k = true
      · rw [if_pos h4]
        simp only [List.mem_singleton]
        constructor
        · intro h; cases h
        · rintro (⟨ha, hb, hc', _⟩ | ⟨_, hb, hc', _⟩)
          · exact absurd ⟨ha, hb, hc'⟩ h1
          · exact absurd ⟨hb, hc'⟩ h3
      · rw [if_neg h4]
        simp only [List.not_mem_nil, false_iff]
        rintro (⟨ha, hb, hc', _⟩ | ⟨_, hb, hc', _⟩)
        · exact absurd ⟨ha, hb, hc'⟩ h1
        · exact absurd ⟨hb, hc'⟩ h3

/-- **C4 counterexample**: starting from a bucket actually produced by
`unrollTarball` (four files under the federated content-review component,
one under the non-federated one), the eviction loop removes
`components/sakai-content-review-pack` even though that group's accumulated
count is `1 ≤ 3` — the special federated case breaks the claimed
"exactly when ... count strictly greater than 3". -/
theorem C4_counterexample_special_case_removes_low_count_group :
    (unrollTarball
        [.reg "components/sakai-content-review-pack-federated/a.jar" "a",
         .reg "components/sakai-content-review-pack-federated/b.jar" "b",
         .reg "components/sakai-content-review-pack-federated/c.jar" "c",
         .reg "components/sakai-content-review-pack-federated/d.jar" "d",
         .reg "components/sakai-content-review-pack/x.jar" "x"] ⟨[], []⟩).1 =
      [("components/sakai-content-review-pack-federated", 4),
       ("components/sakai-content-review-pack", 1)] ∧
    EvictAction.removeAll "components/sakai-content-review-pack" ∈
      evictionActions
        [("components/sakai-content-review-pack-federated", 4),
         ("components/sakai-content-review-pack", 1)] ∧
    assocLookup
        [("components/sakai-content-review-pack-federated", (4 : Int)),
         ("components/sakai-content-review-pack", 1)]
        "components/sakai-content-review-pack" = some 1 ∧
    ¬(3 < (1 : Int)) := by
  refine ⟨by decide, by decide, by decide, by decide⟩

/-- **C4 (amended)**: the eviction loop issues a recursive removal of a
directory `d` exactly when some bucket entry `(k, c)` triggers it, namely:
`k` begins with the modular-component root, is not under the provider-pack
exception, has count `c > 3`, and `d` is `k`'s two-segment group directory —
or the same conditions hold for a group containing
`sakai-content-review-pack-federated` and `d` is the special companion
`components/sakai-content-review-pack` — or (the component rule not
applying) `k` is a `webapps`-rooted `.war` entry and `d` is its exploded
webapp directory.  In particular a modular-component group with count ≤ 3
is only ever deleted through the federated special case. -/
theorem C4_amended_removeAll_characterization (m : Bucket) (d : String) :
    EvictAction.removeAll d ∈ evictionActions m ↔
      ∃ kc ∈ m,
        (3 < kc.2 ∧ goHasPrefix kc.1 "components" = true ∧
          goContains kc.1 "sakai-provider-pack" = false ∧
          (d = twoSegOf kc.1 ∨
            (goContains (twoSegOf kc.1) "sakai-content-review-pack-federated" = true ∧
              d = "components/sakai-content-review-pack"))) ∨
        (¬(3 < kc.2 ∧ goHasPrefix kc.1 "components" = true ∧
            goContains kc.1 "sakai-provider-pack" = false) ∧
          goHasPrefix kc.1 "webapps" = true ∧ goHasSuffix kc.1 ".war" = true ∧
          d = trimSuffix (twoSegOf kc.1) ".war") := by
  induction m with
  | nil => simp [evictionActions]
  | cons kc t ih =>
    obtain ⟨k, c⟩ := kc
    simp only [evictionActions, List.mem_append, ih, List.mem_cons]
    rw [mem_removeAll_evictActionsFor]
    constructor
    · rintro (h | ⟨kc', hmem, hpred⟩)
      · exact ⟨(k, c), Or.inl rfl, h⟩
      · exact ⟨kc', Or.inr hmem, hpred⟩
    · rintro ⟨kc', hmem, hpred⟩
      rcases hmem with rfl | hmem
      · exact Or.inl hpred
      · exact Or.inr ⟨kc', hmem, hpred⟩

/-! ### C5: library-glob removal failures are fatal -/

/-- A removal environment in which deleting the first of two glob matches
fails (no directories, no symlinks, `os.RemoveAll` always succeeds). -/
def env5 : RemoveEnv where
  glob := fun _ => ["shared/lib/foo-1.jar", "shared/lib/foo-2.jar"]
  isDirOf := fun _ => false
  resolve := fun f => f
  removeOk := fun f => f != "shared/lib/foo-1.jar"
  removeAllOk := fun _ => true

/-- **C5 counterexample**: when removing an individual library-glob match
fails, `removeFiles` returns the error at once (the second match is never
reached) and the eviction phase aborts with the source's panic message —
the run *is* aborted, contradicting "processing continues with the next glob
match, and the run is not aborted". -/
theorem C5_counterexample_lib_glob_failure_aborts :
    isLibJar "shared/lib/foo-1.jar" = true ∧
    removeFiles env5 "shared/lib/foo-*.jar" =
      .error "Failed to remove shared/lib/foo-1.jar" ∧
    cleanOutOldDirs env5 [("shared/lib/foo-1.jar", 1)] =
      .error "Could not delete wildcarded path: shared/lib/foo-*.jar" := by
  refine ⟨by decide, rfl, rfl⟩

theorem execEvictActions_error_of_mem (env : RemoveEnv) (as : List EvictAction)
    (a : EvictAction) (hmem : a ∈ as) (herr : execEvictAction env a ≠ .ok ()) :
    execEvictActions env as ≠ .ok () := by
  induction as with
  | nil => cases hmem
  | cons b t ih =>
    rcases List.mem_cons.mp hmem with rfl | hmem'
    · simp only [execEvictActions]
      cases hb : execEvictAction env a with
      | ok u => cases u; exact absurd hb herr
      | error e => simp
    · simp only [execEvictActions]
      cases hb : execEvictAction env b with
      | ok u => exact ih hmem'
      | error e => simp

theorem mem_evictionActions_of_mem_bucket (m : Bucket) (k : String) (c : Int)
    (a : EvictAction) (hkc : (k, c) ∈ m) (ha : a ∈ evictActionsFor k c) :
    a ∈ evictionActions m := by
  induction m with
  | nil => cases hkc
  | cons kc t ih =>
    obtain ⟨k', c'⟩ := kc
    rcases List.mem_cons.mp hkc with heq | hmem'
    · cases heq
      exact List.mem_append.mpr (Or.inl ha)
    · exact List.mem_append.mpr (Or.inr (ih hmem'))

/-- **C5 (amended)**: a failed removal of an individual library-glob match is
fatal, like every other deletion failure: `removeFiles` stops at the first
failing non-skipped match and returns its error — the remaining matches are
not attempted — and the eviction phase of `applyTarballPatch` then aborts
(panics) instead of continuing the run. -/
theorem C5_amended_lib_glob_failure_stops_and_aborts :
    (∀ (env : RemoveEnv) (toSkip pre post : List String) (file : String),
      (∀ g ∈ pre, strMem toSkip g = true ∨ env.removeOk g = true) →
      strMem toSkip file = false → env.removeOk file = false →
      removeLoop env toSkip (pre ++ file :: post) =
        .error ("Failed to remove " ++ file)) ∧
    (∀ (env : RemoveEnv) (m : Bucket) (k : String) (c : Int) (g : String),
      (k, c) ∈ m → .removeGlob g ∈ evictActionsFor k c →
      removeFiles env g ≠ .ok () → cleanOutOldDirs env m ≠ .ok ()) := by
  constructor
  · intro env toSkip pre post file hpre hskip hfail
    induction pre with
    | nil =>
      simp only [List.nil_append, removeLoop, hskip, Bool.false_eq_true, if_false,
        hfail]
    | cons g t ih =>
      have hg := hpre g (List.mem_cons_self _ _)
      have ht : ∀ g' ∈ t, strMem toSkip g' = true ∨ env.removeOk g' = true :=
        fun g' hg' => hpre g' (List.mem_cons_of_mem _ hg')
      simp only [List.cons_append, removeLoop]
      rcases hg with hg | hg
      · rw [hg]
        simpa using ih ht
      · rw [hg]
        cases hs : strMem toSkip g
        · simpa using ih ht
        · simpa using ih ht
  · intro env m k c g hkc hglob hfail
    have hmem : EvictAction.removeGlob g ∈ evictionActions m :=
      mem_evictionActions_of_mem_bucket m k c _ hkc hglob
    have herr : execEvictAction env (.removeGlob g) ≠ .ok () := by
      simp only [execEvictAction]
      cases hr : removeFiles env g with
      | ok u => cases u; exact absurd hr hfail
      | error e => simp
    exact execEvictActions_error_of_mem env _ _ hmem herr

/-- Witness for C5 (amended) at the concrete failing environment. -/
theorem C5_amended_witness :
    removeLoop env5 [] ["shared/lib/foo-1.jar", "shared/lib/foo-2.jar"] =
      .error ("Failed to remove " ++ "shared/lib/foo-1.jar") ∧
    cleanOutOldDirs env5 [("shared/lib/foo-1.jar", 1)] ≠ .ok () :=
  ⟨C5_amended_lib_glob_failure_stops_and_aborts.1 env5 [] []
      ["shared/lib/foo-2.jar"] "shared/lib/foo-1.jar"
      (by intro g hg; cases hg) (by decide) (by decide),
    C5_amended_lib_glob_failure_stops_and_aborts.2 env5
      [("shared/lib/foo-1.jar", 1)] "shared/lib/foo-1.jar" 1 "shared/lib/foo-*.jar"
      (by decide) (by decide)
      (by
        intro h
        rw [show removeFiles env5 "shared/lib/foo-*.jar" =
            Except.error "Failed to remove shared/lib/foo-1.jar" from rfl] at h
        cases h)⟩

/-! ### C6: protected files preserved / written on first install -/

theorem processEntry_preserves_protected (e : TarEntry) (m : Bucket) (fs : FS)
    (p : String) (c : String) (hskip : shouldSkipFile p = true)
    (hc : assocLookup fs.files p = some c) :
    assocLookup ((processEntry (m, fs) e).2).files p = some c := by
  cases e with
  | dir name =>
    simp only [processEntry]
    by_cases h : pathExists fs name = true <;> simp [h, fsMkdir, hc]
  | other name => exact hc
  | reg name content =>
    simp only [processEntry]
    by_cases hfn : normalizeName name = p
    · rw [hfn]
      have hex : pathExists fs p = true := by
        unfold pathExists
        rw [hc]
        rfl
      simp [hskip, hex, hc]
    · cases hb : (shouldSkipFile (normalizeName name) && pathExists fs (normalizeName name)) with
      | true => simp [hb, hc]
      | false =>
        simp only [hb, Bool.false_eq_true, if_false]
        unfold fsCreate
        cases hd : strMem fs.dirs (normalizeName name) with
        | true => simp [hc]
        | false =>
          simp only [Bool.false_eq_true, if_false]
          rw [assocLookup_assocSet_ne _ _ _ _ (fun h => hfn h.symm)]
          exact hc

theorem unrollTarball_preserves_protected (entries : List TarEntry) :
    ∀ (m : Bucket) (fs : FS) (p c : String), shouldSkipFile p = true →
      assocLookup fs.files p = some c →
      assocLookup ((entries.foldl processEntry (m, fs)).2).files p = some c := by
  induction entries with
  | nil => intro m fs p c _ hc; exact hc
  | cons e t ih =>
    intro m fs p c hskip hc
    rw [List.foldl_cons]
    have step := processEntry_preserves_protected e m fs p c hskip hc
    rcases hpe : processEntry (m, fs) e with ⟨m', fs'⟩
    rw [hpe] at step
    exact ih m' fs' p c hskip step

/-- **C6**: (1) for every archive and filesystem, a path matching the
protected pattern that exists as a regular file before extraction has
unchanged contents after `unrollTarball`; (2) when no file or directory
exists at a protected entry's normalized path beforehand, the entry-loop
iteration writes the archive's content for that entry normally. -/
theorem C6_protected_preserved_or_written_on_first_install :
    (∀ (entries : List TarEntry) (fs : FS) (p c : String),
      shouldSkipFile p = true → assocLookup fs.files p = some c →
      assocLookup ((unrollTarball entries fs).2).files p = some c) ∧
    (∀ (name content : String) (m : Bucket) (fs : FS),
      shouldSkipFile (normalizeName name) = true →
      assocLookup fs.files (normalizeName name) = none →
      strMem fs.dirs (normalizeName name) = false →
      assocLookup ((processEntry (m, fs) (.reg name content)).2).files (normalizeName name) =
        some content) := by
  constructor
  · intro entries fs p c hskip hc
    exact unrollTarball_preserves_protected entries [] fs p c hskip hc
  · intro name content m fs _hskip habs hnotdir
    have hex : pathExists fs (normalizeName name) = false := by
      unfold pathExists
      rw [habs, hnotdir]
      rfl
    simp only [processEntry, hex, Bool.and_false, Bool.false_eq_true, if_false]
    unfold fsCreate
    rw [hnotdir]
    simp only [Bool.false_eq_true, if_false]
    exact assocLookup_assocSet_self _ _ _

/-- Witness for C6 at a concrete archive: an existing protected file keeps
its bytes, and an absent protected file receives the archive's content. -/
theorem C6_witness :
    assocLookup ((unrollTarball
        [.reg "components/sakai-provider-pack/WEB-INF/jldap-beans.xml" "new"]
        ⟨[("components/sakai-provider-pack/WEB-INF/jldap-beans.xml", "orig")], []⟩).2).files
      "components/sakai-provider-pack/WEB-INF/jldap-beans.xml" = some "orig" ∧
    assocLookup ((processEntry ([], ⟨[], []⟩)
        (.reg "components/sakai-provider-pack/WEB-INF/jldap-beans.xml" "new")).2).files
      (normalizeName "components/sakai-provider-pack/WEB-INF/jldap-beans.xml") = some "new" :=
  ⟨C6_protected_preserved_or_written_on_first_install.1
      [.reg "components/sakai-provider-pack/WEB-INF/jldap-beans.xml" "new"]
      ⟨[("components/sakai-provider-pack/WEB-INF/jldap-beans.xml", "orig")], []⟩
      "components/sakai-provider-pack/WEB-INF/jldap-beans.xml" "orig" (by decide) (by decide),
    C6_protected_preserved_or_written_on_first_install.2
      "components/sakai-provider-pack/WEB-INF/jldap-beans.xml" "new" [] ⟨[], []⟩
      (by decide) (by decide) (by decide)⟩

/-! ### C1: property patching -/

/-- **C1 counterexample**: patching `k=9` over
`sakai.properties = "k=1\nx\nk=2"` and `local.properties = "k=3"`.  The new
line is written once after *every* commented-out match — twice into
`sakai.properties` and once into `local.properties`, not "exactly once in
total into the single most-specific existing file" — and (because the inner
loop mutates the slice it ranges over) the second match in
`sakai.properties` overwrites the line `x` and leaves an *uncommented*
`k=2` line behind. -/
theorem C1_counterexample_new_line_written_into_every_matching_file :
    (modifyPropertyFiles "k=9" "63547" "2026-01-01 00:00:00"
        ⟨[("sakai/sakai.properties", "k=1\nx\nk=2"),
          ("sakai/local.properties", "k=3")], []⟩).files =
      [("sakai/sakai.properties", "#k=1\nk=9\n#k=2\nk=9\nk=2"),
       ("sakai/local.properties", "#k=3\nk=9")] := by decide

theorem foldl_commentStep_no_match (key nl : String) (orig : List String)
    (l : List Nat) :
    ∀ st : List String × Bool,
      (∀ i ∈ l, lineMatches key (orig.getD i "") = false) →
      l.foldl (commentStep key nl orig) st = st := by
  induction l with
  | nil => intro st _; rfl
  | cons i t ih =>
    intro st h
    have hi : lineMatches key (orig.getD i "") = false := h i (List.mem_cons_self _ _)
    simp only [List.foldl_cons, commentStep, hi, Bool.false_eq_true, if_false]
    exact ih st (fun j hj => h j (List.mem_cons_of_mem _ hj))

theorem commentLoop_no_match (key nl : String) (orig : List String)
    (h : ∀ j < orig.length, lineMatches key (orig.getD j "") = false) :
    commentLoop key nl orig = (orig, false) := by
  unfold commentLoop
  exact foldl_commentStep_no_match key nl orig _ _
    (fun i hi => h i (List.mem_range.mp hi))

theorem range_decompose (n i0 : Nat) (h : i0 < n) :
    List.range n = List.range i0 ++ i0 :: (List.range (n - i0 - 1)).map (i0 + 1 + ·) := by
  conv_lhs => rw [show n = i0 + (1 + (n - i0 - 1)) from by omega]
  rw [List.range_add, List.range_add,
    show List.range 1 = [0] from rfl]
  simp [List.map_map, Function.comp, Nat.add_assoc]

theorem commentLoop_unique_match (key nl : String) (orig : List String) (i0 : Nat)
    (hm : lineMatches key (orig.getD i0 "") = true)
    (hi0 : i0 < orig.length)
    (hothers : ∀ j < orig.length, j ≠ i0 → lineMatches key (orig.getD j "") = false) :
    commentLoop key nl orig =
      (goInsertAfter (orig.set i0 ("#" ++ orig.getD i0 "")) i0 nl, true) := by
  unfold commentLoop
  rw [range_decompose orig.length i0 hi0, List.foldl_append, List.foldl_cons]
  rw [foldl_commentStep_no_match key nl orig (List.range i0) (orig, false)
    (fun i hi => hothers i (Nat.lt_trans (List.mem_range.mp hi) hi0)
      (Nat.ne_of_lt (List.mem_range.mp hi)))]
  simp only [commentStep, hm, if_true]
  exact foldl_commentStep_no_match key nl orig _ _
    (fun i hi => by
      obtain ⟨j, hj, rfl⟩ := List.mem_map.mp hi
      have hjr := List.mem_range.mp hj
      exact hothers (i0 + 1 + j) (by omega) (by omega))

theorem pathExists_of_lookup_some (fs : FS) (p v : String)
    (h : assocLookup fs.files p = some v) : pathExists fs p = true := by
  unfold pathExists
  rw [h]
  rfl

theorem propFileStep_not_readable (key nl : String) (st : PropState) (pf : String)
    (h : assocLookup st.fs.files ("sakai/" ++ pf) = none) :
    propFileStep key nl st pf = st := by
  simp [propFileStep, h]

theorem propFileStep_no_match (key nl : String) (st : PropState) (pf input : String)
    (hin : assocLookup st.fs.files ("sakai/" ++ pf) = some input)
    (hnm : ∀ j < (goSplitLines input).length,
      lineMatches key ((goSplitLines input).getD j "") = false) :
    propFileStep key nl st pf = ⟨st.fs, st.added, "sakai/" ++ pf⟩ := by
  simp only [propFileStep]
  rw [if_pos (pathExists_of_lookup_some _ _ _ hin), hin]
  dsimp only
  rw [commentLoop_no_match key nl _ hnm]
  simp

theorem propFileStep_unique_match (key nl : String) (st : PropState)
    (pf input : String) (i0 : Nat)
    (hin : assocLookup st.fs.files ("sakai/" ++ pf) = some input)
    (hm : lineMatches key ((goSplitLines input).getD i0 "") = true)
    (hi0 : i0 < (goSplitLines input).length)
    (hothers : ∀ j < (goSplitLines input).length, j ≠ i0 →
      lineMatches key ((goSplitLines input).getD j "") = false) :
    propFileStep key nl st pf =
      ⟨fsWriteFile st.fs ("sakai/" ++ pf)
          (goJoinLines (goInsertAfter
            ((goSplitLines input).set i0 ("#" ++ (goSplitLines input).getD i0 ""))
            i0 nl)),
        true, "sakai/" ++ pf⟩ := by
  simp only [propFileStep]
  rw [if_pos (pathExists_of_lookup_some _ _ _ hin), hin]
  dsimp only
  rw [commentLoop_unique_match key nl _ i0 hm hi0 hothers]
  simp

theorem propFileStep_preserves_lookup (key nl : String) (st : PropState) (pf q : String)
    (hq : q ≠ "sakai/" ++ pf) :
    assocLookup (propFileStep key nl st pf).fs.files q = assocLookup st.fs.files q := by
  simp only [propFileStep]
  cases hpe : pathExists st.fs ("sakai/" ++ pf) with
  | false => simp [hpe]
  | true =>
    simp only [hpe, if_true]
    cases hlook : assocLookup st.fs.files ("sakai/" ++ pf) with
    | none => rfl
    | some input =>
      dsimp only
      cases hres : (commentLoop key nl (goSplitLines input)).2 with
      | false => simp
      | true =>
        simp only [if_true, fsWriteFile]
        exact assocLookup_assocSet_ne _ _ _ _ hq

theorem propFileStep_added_mono (key nl : String) (st : PropState) (pf : String)
    (h : st.added = true) : (propFileStep key nl st pf).added = true := by
  simp only [propFileStep]
  cases hpe : pathExists st.fs ("sakai/" ++ pf) with
  | false => simpa [hpe] using h
  | true =>
    simp only [hpe, if_true]
    cases hlook : assocLookup st.fs.files ("sakai/" ++ pf) with
    | none => exact h
    | some input => simp [h]

theorem foldl_propFileStep_preserves_lookup (key nl : String) (L : List String) :
    ∀ (st : PropState) (q : String), (∀ pf ∈ L, q ≠ "sakai/" ++ pf) →
      assocLookup ((L.foldl (propFileStep key nl) st).fs.files) q =
        assocLookup st.fs.files q := by
  induction L with
  | nil => intro st q _; rfl
  | cons pf T ih =>
    intro st q h
    rw [List.foldl_cons, ih _ q (fun g hg => h g (List.mem_cons_of_mem _ hg)),
      propFileStep_preserves_lookup key nl st pf q (h pf (List.mem_cons_self _ _))]

theorem foldl_propFileStep_added_mono (key nl : String) (L : List String) :
    ∀ st : PropState, st.added = true →
      (L.foldl (propFileStep key nl) st).added = true := by
  induction L with
  | nil => intro st h; exact h
  | cons pf T ih =>
    intro st h
    exact ih _ (propFileStep_added_mono key nl st pf h)

theorem foldl_propFileStep_no_match (key nl : String) (fs : FS) (L : List String)
    (h : ∀ pf ∈ L, ∀ inp, assocLookup fs.files ("sakai/" ++ pf) = some inp →
      ∀ j < (goSplitLines inp).length,
        lineMatches key ((goSplitLines inp).getD j "") = false) :
    ∀ lv0 : String,
      L.foldl (propFileStep key nl) ⟨fs, false, lv0⟩ =
        ⟨fs, false,
          L.foldl (fun acc pf =>
            if (assocLookup fs.files ("sakai/" ++ pf)).isSome then "sakai/" ++ pf
            else acc) lv0⟩ := by
  induction L with
  | nil => intro lv0; rfl
  | cons pf T ih =>
    intro lv0
    rw [List.foldl_cons, List.foldl_cons]
    have ht : ∀ pf' ∈ T, ∀ inp, assocLookup fs.files ("sakai/" ++ pf') = some inp →
        ∀ j < (goSplitLines inp).length,
          lineMatches key ((goSplitLines inp).getD j "") = false :=
      fun pf' hpf' => h pf' (List.mem_cons_of_mem _ hpf')
    cases hlook : assocLookup fs.files ("sakai/" ++ pf) with
    | none =>
      rw [propFileStep_not_readable key nl _ pf hlook]
      simp only [Option.isSome_none, Bool.false_eq_true, if_false]
      exact ih ht lv0
    | some inp =>
      rw [propFileStep_no_match key nl _ pf inp hlook
        (h pf (List.mem_cons_self _ _) inp hlook)]
      simp only [Option.isSome_some, if_true]
      exact ih ht _

theorem applyFinish_added (patchID now nl : String) (st : PropState)
    (h : st.added = true) : applyFinish patchID now nl st = st.fs := by
  simp [applyFinish, h]

theorem applyFinish_append (patchID now nl : String) (st : PropState) (input : String)
    (ha : st.added = false) (hlv : st.lastValid ≠ "")
    (hin : assocLookup st.fs.files st.lastValid = some input) :
    applyFinish patchID now nl st =
      fsWriteFile st.fs st.lastValid
        (goJoinLines (goSplitLines input ++
          ["# Longsight patch ID: " ++ patchID ++ " (" ++ now ++ ")", nl])) := by
  simp only [applyFinish]
  rw [if_pos ⟨ha, hlv⟩, hin]

theorem applyOneProperty_unique_match (patchID now newPropertyLine : String)
    (fs : FS) (pf input : String) (i0 : Nat)
    (hpf : pf ∈ propertyFiles)
    (hin : assocLookup fs.files ("sakai/" ++ pf) = some input)
    (hm : lineMatches (deriveKey newPropertyLine) ((goSplitLines input).getD i0 "") = true)
    (hi0 : i0 < (goSplitLines input).length)
    (hothers : ∀ j < (goSplitLines input).length, j ≠ i0 →
      lineMatches (deriveKey newPropertyLine) ((goSplitLines input).getD j "") = false) :
    assocLookup (applyOneProperty patchID now fs newPropertyLine).files ("sakai/" ++ pf) =
      some (goJoinLines (goInsertAfter
        ((goSplitLines input).set i0 ("#" ++ (goSplitLines input).getD i0 ""))
        i0 newPropertyLine)) := by
  obtain ⟨L1, L2, hdec⟩ := List.append_of_mem hpf
  have hnodup : propertyFiles.Nodup := by decide
  have hdistinct : ∀ a ∈ propertyFiles, ∀ b ∈ propertyFiles, a ≠ b →
      ¬("sakai/" ++ a) = ("sakai/" ++ b) := by decide
  rw [hdec] at hnodup
  have hmemOf : ∀ x ∈ L1 ++ pf :: L2, x ∈ propertyFiles := fun x hx => by
    rw [hdec]; exact hx
  have hpfProp : pf ∈ propertyFiles := hpf
  have hL1ne : ∀ pf' ∈ L1, ("sakai/" ++ pf) ≠ ("sakai/" ++ pf') := by
    intro pf' h1
    refine hdistinct pf hpfProp pf'
      (hmemOf pf' (List.mem_append.mpr (Or.inl h1))) ?_
    intro he
    exact (List.disjoint_of_nodup_append hnodup) (he ▸ h1) (List.mem_cons_self _ _)
  have hL2ne : ∀ pf' ∈ L2, ("sakai/" ++ pf) ≠ ("sakai/" ++ pf') := by
    intro pf' h2
    refine hdistinct pf hpfProp pf'
      (hmemOf pf' (List.mem_append.mpr (Or.inr (List.mem_cons_of_mem _ h2)))) ?_
    intro he
    have hnd2 : (pf :: L2).Nodup := (List.nodup_append.mp hnodup).2.1
    exact (List.nodup_cons.mp hnd2).1 (he ▸ h2)
  have hlook1 : assocLookup
      ((L1.foldl (propFileStep (deriveKey newPropertyLine) newPropertyLine)
        ⟨fs, false, ""⟩).fs.files) ("sakai/" ++ pf) = some input := by
    rw [foldl_propFileStep_preserves_lookup _ _ L1 _ _ hL1ne]
    exact hin
  simp only [applyOneProperty]
  rw [hdec, List.foldl_append, List.foldl_cons]
  rw [propFileStep_unique_match _ _ _ pf input i0 hlook1 hm hi0 hothers]
  rw [applyFinish_added _ _ _ _ (foldl_propFileStep_added_mono _ _ L2 _ rfl)]
  rw [foldl_propFileStep_preserves_lookup _ _ L2 _ _ hL2ne]
  simp only [fsWriteFile]
  exact assocLookup_assocSet_self _ _ _

theorem foldl_propFileStep_to_lastExisting (key nl : String) (fs : FS)
    (hnm : ∀ pf ∈ propertyFiles, ∀ inp,
      assocLookup fs.files ("sakai/" ++ pf) = some inp →
      ∀ j < (goSplitLines inp).length,
        lineMatches key ((goSplitLines inp).getD j "") = false) :
    propertyFiles.foldl (propFileStep key nl) ⟨fs, false, ""⟩ =
      ⟨fs, false, lastExistingPropertyFile fs⟩ := by
  rw [foldl_propFileStep_no_match key nl fs propertyFiles hnm ""]
  rfl

theorem applyOneProperty_no_match_appends (patchID now newPropertyLine : String)
    (fs : FS) (input : String)
    (hnm : ∀ pf ∈ propertyFiles, ∀ inp,
      assocLookup fs.files ("sakai/" ++ pf) = some inp →
      ∀ j < (goSplitLines inp).length,
        lineMatches (deriveKey newPropertyLine) ((goSplitLines inp).getD j "") = false)
    (hne : lastExistingPropertyFile fs ≠ "")
    (hin : assocLookup fs.files (lastExistingPropertyFile fs) = some input) :
    applyOneProperty patchID now fs newPropertyLine =
      fsWriteFile fs (lastExistingPropertyFile fs)
        (goJoinLines (goSplitLines input ++
          ["# Longsight patch ID: " ++ patchID ++ " (" ++ now ++ ")",
            newPropertyLine])) := by
  simp only [applyOneProperty]
  rw [foldl_propFileStep_to_lastExisting _ _ fs hnm]
  exact applyFinish_append patchID now newPropertyLine _ input rfl hne hin

theorem splitOnChar_no_occurrence (c : Char) (l : List Char)
    (h : ∀ x ∈ l, x ≠ c) : splitOnChar c l = [l] := by
  induction l with
  | nil => rfl
  | cons x t ih =>
    have hx : x ≠ c := h x (List.mem_cons_self _ _)
    simp only [splitOnChar, hx, if_false]
    rw [ih (fun y hy => h y (List.mem_cons_of_mem _ hy))]

theorem modifyPropertyFiles_single_line (rawProperties patchID now : String) (fs : FS)
    (h : ∀ x ∈ rawProperties.data, x ≠ '\n') :
    modifyPropertyFiles rawProperties patchID now fs =
      applyOneProperty patchID now fs rawProperties := by
  unfold modifyPropertyFiles goSplitLines
  rw [splitOnChar_no_occurrence '\n' rawProperties.data h]
  rfl

/-- **C1 (amended)**: for a change line `k=v` (key = text before the first
`=`, when the line has an `=` and no `#`):
(1) in every existing candidate file whose lines contain exactly one line
satisfying the match condition (contains `k`, does not contain `"#"+k`),
patching comments that line out and inserts the new line *immediately after
it, in that same file* — so the new line is written once per matching file,
whichever files those are, not once in total into the most-specific file;
(2) only when no existing candidate file has a matching line is the new
line appended exactly once — preceded by a dated patch comment — to the
most-specific (last) existing candidate file, all other files unchanged;
(3) a raw property text without newlines is processed as exactly one such
change line. -/
theorem C1_amended_insert_per_match_append_only_when_no_match :
    (∀ (patchID now newPropertyLine : String) (fs : FS) (pf input : String) (i0 : Nat),
      pf ∈ propertyFiles →
      assocLookup fs.files ("sakai/" ++ pf) = some input →
      lineMatches (deriveKey newPropertyLine) ((goSplitLines input).getD i0 "") = true →
      i0 < (goSplitLines input).length →
      (∀ j < (goSplitLines input).length, j ≠ i0 →
        lineMatches (deriveKey newPropertyLine) ((goSplitLines input).getD j "") = false) →
      assocLookup (applyOneProperty patchID now fs newPropertyLine).files
          ("sakai/" ++ pf) =
        some (goJoinLines (goInsertAfter
          ((goSplitLines input).set i0 ("#" ++ (goSplitLines input).getD i0 ""))
          i0 newPropertyLine))) ∧
    (∀ (patchID now newPropertyLine : String) (fs : FS) (input : String),
      (∀ pf ∈ propertyFiles, ∀ inp,
        assocLookup fs.files ("sakai/" ++ pf) = some inp →
        ∀ j < (goSplitLines inp).length,
          lineMatches (deriveKey newPropertyLine) ((goSplitLines inp).getD j "") = false) →
      lastExistingPropertyFile fs ≠ "" →
      assocLookup fs.files (lastExistingPropertyFile fs) = some input →
      applyOneProperty patchID now fs newPropertyLine =
        fsWriteFile fs (lastExistingPropertyFile fs)
          (goJoinLines (goSplitLines input ++
            ["# Longsight patch ID: " ++ patchID ++ " (" ++ now ++ ")",
              newPropertyLine]))) ∧
    (∀ (rawProperties patchID now : String) (fs : FS),
      (∀ x ∈ rawProperties.data, x ≠ '\n') →
      modifyPropertyFiles rawProperties patchID now fs =
        applyOneProperty patchID now fs rawProperties) :=
  ⟨applyOneProperty_unique_match, applyOneProperty_no_match_appends,
    modifyPropertyFiles_single_line⟩

/-- Witness for C1 (amended): a single match in `dev.properties` is
commented out with the new line inserted after it; with no match anywhere,
the new line is appended (with the dated comment) to the most specific
existing file. -/
theorem C1_amended_witness :
    assocLookup (applyOneProperty "63547" "2026-01-01" ⟨[("sakai/dev.properties", "k=1\nx")], []⟩
        "k=9").files ("sakai/" ++ "dev.properties") =
      some (goJoinLines (goInsertAfter
        ((goSplitLines "k=1\nx").set 0 ("#" ++ (goSplitLines "k=1\nx").getD 0 ""))
        0 "k=9")) ∧
    applyOneProperty "63547" "2026-01-01"
        ⟨[("sakai/sakai.properties", "a=b"), ("sakai/local.properties", "c=d")], []⟩
        "brand.new=1" =
      fsWriteFile ⟨[("sakai/sakai.properties", "a=b"), ("sakai/local.properties", "c=d")], []⟩
        (lastExistingPropertyFile
          ⟨[("sakai/sakai.properties", "a=b"), ("sakai/local.properties", "c=d")], []⟩)
        (goJoinLines (goSplitLines "c=d" ++
          ["# Longsight patch ID: " ++ "63547" ++ " (" ++ "2026-01-01" ++ ")",
            "brand.new=1"])) ∧
    modifyPropertyFiles "k=9" "63547" "2026-01-01" ⟨[("sakai/dev.properties", "k=1\nx")], []⟩ =
      applyOneProperty "63547" "2026-01-01" ⟨[("sakai/dev.properties", "k=1\nx")], []⟩ "k=9" :=
  ⟨C1_amended_insert_per_match_append_only_when_no_match.1 "63547" "2026-01-01" "k=9"
      ⟨[("sakai/dev.properties", "k=1\nx")], []⟩ "dev.properties" "k=1\nx" 0
      (by decide) (by decide) (by decide) (by decide) (by decide),
    C1_amended_insert_per_match_append_only_when_no_match.2.1 "63547" "2026-01-01"
      "brand.new=1" ⟨[("sakai/sakai.properties", "a=b"), ("sakai/local.properties", "c=d")], []⟩
      "c=d"
      (by
        intro pf hpf inp hinp
        fin_cases hpf
        · rw [show assocLookup
              (⟨[("sakai/sakai.properties", "a=b"), ("sakai/local.properties", "c=d")], []⟩ :
                FS).files ("sakai/" ++ "sakai.properties") = some "a=b" from rfl] at hinp
          injection hinp with hinp'
          subst hinp'
          decide
        · rw [show assocLookup
              (⟨[("sakai/sakai.properties", "a=b"), ("sakai/local.properties", "c=d")], []⟩ :
                FS).files ("sakai/" ++ "dev.properties") = none from rfl] at hinp
          cases hinp
        · rw [show assocLookup
              (⟨[("sakai/sakai.properties", "a=b"), ("sakai/local.properties", "c=d")], []⟩ :
                FS).files ("sakai/" ++ "local.properties") = some "c=d" from rfl] at hinp
          injection hinp with hinp'
          subst hinp'
          decide
        · rw [show assocLookup
              (⟨[("sakai/sakai.properties", "a=b"), ("sakai/local.properties", "c=d")], []⟩ :
                FS).files ("sakai/" ++ "instance.properties") = none from rfl] at hinp
          cases hinp)
      (by decide) (by decide),
    C1_amended_insert_per_match_append_only_when_no_match.2.2 "k=9" "63547" "2026-01-01"
      ⟨[("sakai/dev.properties", "k=1\nx")], []⟩ (by decide)⟩

/-! ### C10: range of `parseServerStartupTime` -/

theorem firstBigToken_range (ts : List (List Char)) :
    firstBigToken ts = -1 ∨ 1000 < firstBigToken ts := by
  induction ts with
  | nil => exact Or.inl rfl
  | cons t rest ih =>
    simp only [firstBigToken]
    cases ha : goAtoi (String.mk t) with
    | none => exact ih
    | some k =>
      dsimp only
      by_cases hk : 1000 < k
      · rw [if_pos hk]
        exact Or.inr hk
      · rw [if_neg hk]
        exact ih

theorem parseServerStartupTime_range (s : String) (k : Int)
    (h : parseServerStartupTime s = some k) : k = -1 ∨ 1000 < k := by
  unfold parseServerStartupTime at h
  by_cases hm : goContains s "milliseconds" = true
  · rw [if_pos hm] at h
    by_cases hcmp : lastIndexOf s.data ']' < lastIndexOf s.data '[' + 1
    · rw [if_pos hcmp] at h
      cases h
    · rw [if_neg hcmp] at h
      cases ha : goAtoi (String.mk
          (((s.data.take (lastIndexOf s.data ']').toNat).drop
            (lastIndexOf s.data '[' + 1).toNat).filter (fun c => c != ','))) with
      | none =>
        rw [ha] at h
        cases h
        exact firstBigToken_range _
      | some j =>
        rw [ha] at h
        dsimp only at h
        by_cases hj : 1000 < j
        · rw [if_pos hj] at h
          cases h
          exact Or.inr hj
        · rw [if_neg hj] at h
          cases h
          exact firstBigToken_range _
  · rw [if_neg hm] at h
    cases h
    exact firstBigToken_range _

/-- **C10 counterexample**: `parseServerStartupTime` does not return `-1` or
an integer over 1000 on *every* input line — on a line containing
`milliseconds` but no brackets the Go slice expression
`logLine[beginBracket:endComma]` has `endComma = -1 < beginBracket` and the
program panics (modelled as `none`); it returns nothing at all. -/
theorem C10_counterexample_milliseconds_without_brackets_panics :
    parseServerStartupTime "a milliseconds" = none := by decide

/-- **C10 (amended)**: on every line on which `parseServerStartupTime`
returns (does not panic), the result is `-1` or an integer strictly greater
than 1000 — never a value in `1..1000` — so any `success` classification of
the polling loop carries a duration above 1000, and a startup marker line
whose elapsed time is 1000 ms or less (e.g. `[800]`) is classified as the
service-down outcome rather than success. -/
theorem C10_amended_parse_never_small_positive :
    (∀ (s : String) (k : Int), parseServerStartupTime s = some k →
      k = -1 ∨ 1000 < k) ∧
    (∀ (logLines : List String) (n : Int),
      pollOutcome logLines = some (.success n) → 1000 < n) ∧
    pollOutcome ["Server startup in [800] milliseconds"] = some .down := by
  refine ⟨parseServerStartupTime_range, ?_, by decide⟩
  intro logLines n h
  unfold pollOutcome at h
  by_cases hig : goContains (checkServerStartup logLines) "ignite" = true
  · rw [if_pos hig] at h
    cases h
  · rw [if_neg hig] at h
    cases hf : goContains (checkServerStartup logLines) "false" with
    | true =>
      rw [hf] at h
      simp only [Bool.not_true, Bool.false_eq_true, if_false] at h
      cases h
    | false =>
      rw [hf] at h
      simp only [Bool.not_false, if_true] at h
      cases hp : parseServerStartupTime (checkServerStartup logLines) with
      | none =>
        rw [hp] at h
        cases h
      | some parsedTime =>
        rw [hp] at h
        dsimp only at h
        by_cases hpos : 0 < parsedTime
        · rw [if_pos hpos] at h
          cases h
          rcases parseServerStartupTime_range _ _ hp with hneg | hbig
          · rw [hneg] at hpos
            cases hpos
          · exact hbig
        · rw [if_neg hpos] at h
          cases h

/-- Witness for C10 (amended) at a concrete marker line and log. -/
theorem C10_amended_witness :
    ((4512 : Int) = -1 ∨ 1000 < (4512 : Int)) ∧ 1000 < (4512 : Int) :=
  ⟨C10_amended_parse_never_small_positive.1 "INFO: Server startup in [4512] milliseconds"
      4512 (by decide),
    C10_amended_parse_never_small_positive.2.1
      ["INFO: Server startup in [4512] milliseconds"] 4512 (by decide)⟩

/-! ### C8: classification of a startup marker line -/

/-- **C8 counterexample**: a line containing
`Server startup in [4512] milliseconds` (with no transient-failure signature
anywhere in the log) is *not* always classified `Success 4512`: the marker
line is returned as a string and then re-tested for the substrings
`"ignite"`/`"false"`, so a marker line that happens to contain `"ignite"`
makes the poll report the `Deferred` outcome instead. -/
theorem C8_counterexample_marker_line_containing_ignite_defers :
    goContains "Server startup in [4512] milliseconds for ignite"
      "Server startup in [4512] milliseconds" = true ∧
    goContains "Server startup in [4512] milliseconds for ignite"
      igniteMismatchPattern = false ∧
    pollOutcome ["Server startup in [4512] milliseconds for ignite"] = some .deferred ∧
    pollOutcome ["Server startup in [4512] milliseconds for ignite"] ≠
      some (.success 4512) := by
  refine ⟨by decide, by decide, by decide, by decide⟩

/-- **C8 (amended)**: the concrete scenario holds — a log whose marker line
is `INFO: Server startup in [4512] milliseconds` (and no signature line
before it) is classified `Success 4512` — and in general, whenever the
marker line found by `checkServerStartup` contains neither `"ignite"` nor
`"false"` as substrings, the poll classifies `success k` when the line
parses to `k > 0` (`k` is then over 1000) and the service-down outcome when
it parses to `-1`. -/
theorem C8_amended_marker_classification :
    runMonitor [["INFO: Server startup in [4512] milliseconds"]] =
      some (.success 4512) ∧
    (∀ (logLines : List String) (line : String) (k : Int),
      checkServerStartup logLines = line →
      goContains line "ignite" = false →
      goContains line "false" = false →
      parseServerStartupTime line = some k →
      pollOutcome logLines = some (if 0 < k then Outcome.success k else Outcome.down)) := by
  constructor
  · decide
  · intro logLines line k hline hig hf hp
    unfold pollOutcome
    rw [hline]
    dsimp only
    rw [hig, hf, hp]
    simp only [Bool.false_eq_true, if_false, Bool.not_false, if_true]
    by_cases hk : 0 < k
    · rw [if_pos hk, if_pos hk]
    · rw [if_neg hk, if_neg hk]

/-- Witness for C8 (amended): the success case and the unparseable
(`Failed`) case at concrete logs. -/
theorem C8_amended_witness :
    pollOutcome ["INFO: Server startup in [4512] milliseconds"] =
      some (if 0 < (4512 : Int) then Outcome.success 4512 else Outcome.down) ∧
    pollOutcome ["Server startup in [800] milliseconds"] =
      some (if 0 < (-1 : Int) then Outcome.success (-1) else Outcome.down) :=
  ⟨C8_amended_marker_classification.2 ["INFO: Server startup in [4512] milliseconds"]
      "INFO: Server startup in [4512] milliseconds" 4512 (by decide) (by decide)
      (by decide) (by decide),
    C8_amended_marker_classification.2 ["Server startup in [800] milliseconds"]
      "Server startup in [800] milliseconds" (-1) (by decide) (by decide)
      (by decide) (by decide)⟩

/-! ### C9: the ignite signature defers immediately -/

theorem checkServerStartup_ignite (s1 s2 : List String) (line : String)
    (hline : goContains line igniteMismatchPattern = true)
    (hpre : ∀ l' ∈ s1, goContains l' igniteMismatchPattern = false ∧
      goContains l' tomcatServerStartupPattern = false) :
    checkServerStartup (s1 ++ line :: s2) = "ignite" := by
  induction s1 with
  | nil =>
    simp only [List.nil_append, checkServerStartup, hline, if_true]
  | cons l' t ih =>
    have hl' := hpre l' (List.mem_cons_self _ _)
    simp only [List.cons_append, checkServerStartup, hl'.1, hl'.2,
      Bool.false_eq_true, if_false]
    exact ih (fun g hg => hpre g (List.mem_cons_of_mem _ hg))

/-- **C9**: when the startup log contains the configuration-mismatch
signature on a line before any line containing the startup marker, the poll
that observes it classifies the run `Deferred` at once — for any number of
earlier still-waiting polls and irrespective of how many polls the remaining
time budget would still allow. -/
theorem C9_ignite_signature_defers_immediately
    (pre : List (List String)) (s1 s2 : List String) (line : String)
    (rest : List (List String))
    (hline : goContains line igniteMismatchPattern = true)
    (hbefore : ∀ l' ∈ s1, goContains l' igniteMismatchPattern = false ∧
      goContains l' tomcatServerStartupPattern = false)
    (hpre : ∀ t ∈ pre, pollOutcome t = some .keepWaiting) :
    runMonitor (pre ++ (s1 ++ line :: s2) :: rest) = some .deferred := by
  have hpoll : pollOutcome (s1 ++ line :: s2) = some .deferred := by
    unfold pollOutcome
    rw [checkServerStartup_ignite s1 s2 line hline hbefore]
    dsimp only
    rw [show goContains "ignite" "ignite" = true from by decide]
    simp only [if_true]
  induction pre with
  | nil =>
    simp only [List.nil_append, runMonitor, hpoll]
  | cons t rest' ih =>
    have ht := hpre t (List.mem_cons_self _ _)
    simp only [List.cons_append, runMonitor, ht]
    exact ih (fun g hg => hpre g (List.mem_cons_of_mem _ hg))

/-- Witness for C9: one waiting poll, then a snapshot whose second line is
the signature, with budget for further polls remaining. -/
theorem C9_witness :
    runMonitor [["starting up"],
      ["context init",
       "Fix cache configuration or set system property to continue"],
      ["later snapshot"]] = some .deferred :=
  C9_ignite_signature_defers_immediately
    [["starting up"]] ["context init"] []
    "Fix cache configuration or set system property to continue"
    [["later snapshot"]]
    (by decide)
    (by
      intro l' hl'
      simp only [List.mem_singleton] at hl'
      subst hl'
      exact ⟨by decide, by decide⟩)
    (by
      intro t ht
      simp only [List.mem_singleton] at ht
      subst ht
      decide)

end GoPatcher
